import Mathlib

/-!
Shallow embedding of the `cookiejar` Go package: an RFC 6265 cookie jar
with a flat storage backend, a public-suffix engine and an LRU-bounded
least-used selector.

Modelling conventions:
* `time.Time` is modelled as `Int` (nanoseconds); the zero `time.Time`
  is the integer `0`, `t1.Before(t2)` is `t1 < t2`, and one clock tick
  (`time.Nanosecond`) is `1`.
* Strings are modelled as Lean `String`s and, where Go indexes bytes,
  as their character lists; the inputs relevant here are ASCII, where
  Go byte indexing and character indexing coincide.
* Functions from the Go standard library (`net.ParseIP`,
  `net.SplitHostPort`, `container/heap`, `encoding/gob`) are external
  to the repository and are modelled by their documented behaviour;
  each such model is marked `Modelled:` in its doc comment.
* Fallible or panicking code paths return `Option`/`Except`; `none`
  models a Go runtime panic (e.g. an out-of-range slice index).
-/

/-- ASCII lower-casing of a character, as Go `strings.ToLower` acts on
ASCII input. -/
def asciiLowerChar (c : Char) : Char :=
  if 65 ≤ c.toNat ∧ c.toNat ≤ 90 then Char.ofNat (c.toNat + 32) else c

/-- ASCII lower-casing of a string (Go `strings.ToLower`; inputs here
are ASCII). -/
def asciiLower (s : String) : String :=
  String.mk (s.toList.map asciiLowerChar)

/-- Go `strings.HasSuffix`. -/
def goHasSuf (s suf : String) : Bool :=
  suf.toList.isSuffixOf s.toList

/-- Go `strings.HasPrefix`. -/
def goHasPre (s pre : String) : Bool :=
  pre.toList.isPrefixOf s.toList

/-- Index of the last occurrence of `c` in `cs` (Go `strings.LastIndex`
for a one-character separator), `none` when absent. -/
def lastIdxOf (cs : List Char) (c : Char) : Option Nat :=
  match cs.reverse.findIdx? (· == c) with
  | some j => some (cs.length - 1 - j)
  | none => none

/-- Go `strings.Split` on the separator `"."`: `"" ↦ [""]`,
`"a.b" ↦ ["a", "b"]`. -/
def splitOnDot : List Char → List (List Char)
  | [] => [[]]
  | c :: cs =>
    if c == '.' then [] :: splitOnDot cs
    else
      match splitOnDot cs with
      | h :: t => (c :: h) :: t
      | [] => [[c]]

/-- The labels of a domain: `strings.Split(domain, ".")`. -/
def goSplitDot (s : String) : List String :=
  (splitOnDot s.toList).map String.mk

/-- Go `strings.Join(labels, ".")`. -/
def goJoinDot : List String → String
  | [] => ""
  | [l] => l
  | l :: ls => l ++ "." ++ goJoinDot ls

/-- The internal cookie record (`Cookie` in `cookie.go`). A zero
`Expires` is a session cookie. -/
structure Cookie where
  Name : String := ""
  Value : String := ""
  Domain : String := ""
  Path : String := ""
  Expires : Int := 0
  Secure : Bool := false
  HostOnly : Bool := false
  HttpOnly : Bool := false
  Created : Int := 0
  LastAccess : Int := 0
deriving DecidableEq, Repr, Inhabited

/-- Source `Cookie.empty`: the record is a reusable empty slot. -/
def Cookie.empty (c : Cookie) : Bool :=
  c.Name.length == 0

/-- Source `Cookie.IsExpired`: a non-zero `Expires` strictly before `now`. -/
def Cookie.isExpired (c : Cookie) (now : Int) : Bool :=
  c.Expires != 0 && c.Expires < now

/-- Source `farFuture`, a point never reached (`time.Date(9999, ...)` in ns). -/
def farFuture : Int := 253402300799000000000

/-- Source `Cookie.domainMatch` as implemented in `cookie.go`: equality, or a
dot-aligned suffix for a non-host-only cookie.  (The doc comment in the source additionally quotes the RFC 6265 requirement that the host not be
an IP address; the implementation does not check it.) -/
def Cookie.domainMatch (c : Cookie) (host : String) : Bool :=
  if c.Domain == host then true
  else !c.HostOnly && goHasSuf host ("." ++ c.Domain)

/-- Source `Cookie.pathMatch` (RFC 6265 section 5.1.4).  The two byte lookups
`c.Path[len(c.Path)-1]` and `requestPath[len(c.Path)]` are modelled
with a default character for the out-of-range case. -/
def Cookie.pathMatch (c : Cookie) (requestPath : String) : Bool :=
  if requestPath == c.Path then true
  else if goHasPre requestPath c.Path then
    if c.Path.toList.getLastD ' ' == '/' then true
    else if requestPath.toList.getD c.Path.length ' ' == '/' then true
    else false
  else false

/-- Source `secureEnough`: an https request may carry any cookie, an http
request only non-secure ones. -/
def secureEnough (cookieIsSecure requestIsSecure : Bool) : Bool :=
  requestIsSecure || !cookieIsSecure

/-- Source `Cookie.shouldSend`: domain match, path match, not expired and
secure enough. -/
def Cookie.shouldSend (c : Cookie) (host path : String) (secure : Bool) (now : Int) : Bool :=
  c.domainMatch host && c.pathMatch path && !c.isExpired now &&
    secureEnough c.Secure secure

/-- Source `sendList.Less` from `cookie.go`: longer paths go first; for equal
path length the earlier creation time goes first. -/
def sendLess (a b : Cookie) : Bool :=
  if a.Path.length == b.Path.length then a.Created < b.Created
  else decide (a.Path.length > b.Path.length)

/-- The non-strict send order: `a` need not come after `b`.  A list
sorted by Go `sort.Sort(sendList(...))` is sorted with respect to
this relation. -/
def sendLE (a b : Cookie) : Prop :=
  sendLess b a = false

instance : DecidableRel sendLE := fun a b => by
  unfold sendLE; infer_instance

/-- The send-order precedence relation exactly as claim C3 words it:
`a` may precede `b` if the path of `a` is longer, or the paths have equal
length and `a` was created no later than `b`. -/
def sendOrder (a b : Cookie) : Prop :=
  b.Path.length < a.Path.length ∨
    (a.Path.length = b.Path.length ∧ a.Created ≤ b.Created)


/-- A parsed URL, reduced to the three components the jar reads
(`url.URL.Scheme`, `.Host`, `.Path`). -/
structure URL where
  Scheme : String := ""
  Host : String := ""
  Path : String := ""
deriving DecidableEq, Repr, Inhabited

/-- Source `isSecure`: the scheme is `https`. -/
def isSecure (u : URL) : Bool :=
  asciiLower u.Scheme == "https"

/-- Source `isHTTP`: the scheme is `http` or `https`. -/
def isHTTP (u : URL) : Bool :=
  asciiLower u.Scheme == "http" || asciiLower u.Scheme == "https"

/-- Modelled: `net.SplitHostPort` (Go standard library, external to the
repository), restricted to the unbracketed `host:port` form: the part
before the single colon.  More than one colon is an error; bracketed
IPv6 forms are not modelled and no claim depends on them. -/
def splitHostPort (hp : String) : Option String :=
  if hp.toList.count ':' == 1 then
    some (String.mk (hp.toList.takeWhile (· != ':')))
  else none

/-- Source `host` from `jar.go`: lower-case, strip one trailing dot, strip the
port.  The IDN conversion in the source is the identity (`dummy`
punycode). -/
def host (u : URL) : Option String :=
  let h := asciiLower u.Host
  let h := if goHasSuf h "." then String.mk (h.toList.dropLast) else h
  if h.toList.contains ':' then splitHostPort h else some h

/-- Decimal value of a digit string. -/
def digitsVal (cs : List Char) : Nat :=
  cs.foldl (fun acc c => acc * 10 + (c.toNat - 48)) 0

/-- One decimal IPv4 octet in canonical form: digits only, value at
most 255, no redundant leading zero. -/
def ipv4Octet (s : String) : Bool :=
  let cs := s.toList
  !cs.isEmpty && cs.all (·.isDigit) && (cs.length == 1 || cs.headD '0' != '0') &&
    (digitsVal cs ≤ 255 : Bool)

/-- Source `isIP` from `jar.go`.  Modelled: `net.ParseIP` plus the `String`
round trip (Go standard library, external); a host is an IP literal
exactly when it is a canonical dotted-quad IPv4 literal.  IPv6 literals
are not modelled; no claim depends on them. -/
def isIP (host : String) : Bool :=
  let parts := goSplitDot host
  parts.length == 4 && parts.all ipv4Octet

/-- Source `defaultPath` from `jar.go`: the "directory" of the request path.
`""` and relative paths give `/`; otherwise everything strictly before
the last `/`, or `/` when the last `/` is the leading character. -/
def defaultPath (u : URL) : String :=
  let path := u.Path
  if path.length == 0 || path.toList.headD ' ' != '/' then "/"
  else
    match lastIdxOf path.toList '/' with
    | some 0 => "/"
    | some i => String.mk (path.toList.take i)
    | none => "/"

/-- One public-suffix rule (`domainRule` in `publicsuffixes.go`): the
rule with the TLD, a leading `!` and a `*` stripped, and its kind
(`0` normal, `1` exception, `2` wildcard). -/
structure DomainRule where
  rule : String
  kind : Nat
deriving DecidableEq, Repr

/-- Source `domainRule.match`: the rule matches a domain (given with its TLD
removed) when the rule is a dot-aligned suffix of it. -/
def DomainRule.matches (r : DomainRule) (domain : String) : Bool :=
  if !goHasSuf domain r.rule then false
  else if domain.length == r.rule.length then true
  else if r.rule.length == 0 ||
      domain.toList.getD (domain.length - r.rule.length - 1) ' ' == '.' then true
  else false

/-- The compiled rule table `domainRules`, a map from TLD to the list
of rules for that TLD in precedence order.  The table itself is a
generated constant outside the specified core, so definitions are
parametric in it. -/
def RuleTable := String → Option (List DomainRule)

/-- Source `findDomainRule` from `publicsuffixes.go`: split off the TLD, look
its rule list up and return the first matching rule.  The rule cache
consulted by the source is a pure memoisation of this computation and
is not modelled. -/
def findDomainRule (table : RuleTable) (domain : String) : Option DomainRule :=
  let (tld, strippedDomain) :=
    match lastIdxOf domain.toList '.' with
    | some i => (String.mk (domain.toList.drop (i + 1)), String.mk (domain.toList.take i))
    | none => (domain, "")
  match table tld with
  | none => none
  | some rules => rules.find? (fun r => r.matches strippedDomain)

/-- Source `effectiveTldPlusOne` from `publicsuffixes.go`: label count `n`
from the matching rule, clamped to the label count of `domain`; the
returned flag reports the clamping (`tooShort`). -/
def effectiveTldPlusOne (table : RuleTable) (domain : String) : String × Bool :=
  let rule? := findDomainRule table domain
  let labels := goSplitDot domain
  let n : Nat :=
    match rule? with
    | none => 2
    | some rule =>
      let base := if rule.rule == "" then 2 else rule.rule.toList.count '.' + 3
      if rule.kind == 1 then base - 1
      else if rule.kind == 2 then base + 1
      else base
  let clamped := if n > labels.length then (labels.length, true) else (n, false)
  (goJoinDot (labels.drop (labels.length - clamped.1)), clamped.2)

/-- Source `allowCookiesOn` from `publicsuffixes.go`: domain cookies are
allowed when `effectiveTldPlusOne` did not report `tooShort`. -/
def allowCookiesOn (table : RuleTable) (domain : String) : Bool :=
  !(effectiveTldPlusOne table domain).2

/-- Result triple of `publicsuffixRules.info`: whether some rule covers
the domain, whether domain cookies are allowed on it, and the storage
key.  `domainAndType` only reads the first two components; the engine
applied to the compiled table is passed in as a function. -/
structure PSInfo where
  covered : Bool
  allow : Bool
  etld : String
deriving DecidableEq, Repr

/-- The error values of the jar for rejected cookie domains (`cookie.go`). -/
inductive GoError where
  | noHostname
  | malformedDomain
  | tldDomainCookie
  | illegalPSDomain
  | badDomain
deriving DecidableEq, Repr

/-- The leading-dot strip and lower-casing `domainAndType` applies to a
non-empty `Domain` attribute. -/
def stripDomainAttr (domainAttr : String) : String :=
  let d := if domainAttr.toList.headD ' ' == '.'
    then String.mk (domainAttr.toList.drop 1) else domainAttr
  asciiLower d

/-- Source `Jar.domainAndType` from `cookie.go`: derive the stored domain and
the host-only flag from the request host and the received `Domain`
attribute, or reject the cookie.  `psinfo` is `publicsuffixRules.info`
applied to the compiled table. -/
def domainAndType (psinfo : String → PSInfo) (laxMode allowAllDomains : Bool)
    (host domainAttr : String) : Except GoError (String × Bool) :=
  if domainAttr == "" then .ok (host, true)
  else if isIP host then
    if laxMode && domainAttr == host then .ok (host, true)
    else .error .noHostname
  else
    let domain := stripDomainAttr domainAttr
    if domain.length == 0 || domain.toList.headD ' ' == '.' then .error .malformedDomain
    else if !(domain.toList.contains '.') then .error .tldDomainCookie
    else if !allowAllDomains && (psinfo domain).covered && !(psinfo domain).allow then
      if host == domainAttr then .ok (host, true)
      else .error .illegalPSDomain
    else if host != domain && !goHasSuf host ("." ++ domain) then .error .badDomain
    else .ok (domain, false)

/-- Source `FlatStorage`: an unsorted sequence of cookie records with an
optional capacity. -/
structure FlatStorage where
  MaxCookies : Int := 0
  cookies : List Cookie := []
deriving DecidableEq, Repr, Inhabited

/-- Identity test used by `Find` and `Delete`: the stored record for
`(domain, path, name)`. -/
def cookieIdent (domain path name : String) (c : Cookie) : Bool :=
  domain == c.Domain && path == c.Path && name == c.Name

/-- The tracking state of the scan loop in `FlatStorage.Find`:
`(expiredIdx, oldestIdx, leastUsed)`, indices as Go ints with `-1` for
"none".  The loop body is guarded by `expiredIdx != -1` exactly as in
the source, although `expiredIdx` starts at `-1`. -/
def findTrackStep (now : Int) (st : Int × Int × Int) (ic : Nat × Cookie) : Int × Int × Int :=
  if st.1 != -1 then
    if ic.2.isExpired now then ((ic.1 : Int), st.2.1, st.2.2)
    else if ic.2.LastAccess < st.2.2 then (st.1, (ic.1 : Int), ic.2.LastAccess)
    else st
  else st

/-- The `(expiredIdx, oldestIdx)` pair after the scan loop of
`FlatStorage.Find`. -/
def findTrack (cookies : List Cookie) (now : Int) : Int × Int :=
  let st := cookies.enum.foldl (findTrackStep now) (-1, -1, farFuture)
  (st.1, st.2.1)

/-- Result of `FlatStorage.Find`: the index of the returned record in
the (possibly grown or name-cleared) store.  The returned Go pointer is
modelled by the index. -/
structure FindResult where
  idx : Nat
  store : FlatStorage
deriving DecidableEq, Repr

/-- Clear the name of the record at `i`, marking the slot "new"
(`f.cookies[i].Name = ""`). -/
def clearNameAt (cs : List Cookie) (i : Nat) : List Cookie :=
  match cs.get? i with
  | some c => cs.set i { c with Name := "" }
  | none => cs

/-- Source `FlatStorage.Find` from `flat.go`: return the record with the given
identity, else reuse a tracked expired slot, else — at capacity — reuse
the tracked least-used slot, else append a fresh record.  `none` models
the Go panic of a slice access at index `-1`.  The single Go loop both
searches and tracks; the search is `findIdx?` here and the tracking is
`findTrack`.  On an identity hit Go returns mid-loop, leaving the
tracking state unread, so computing it over the whole list is
indistinguishable. -/
def FlatStorage.find (f : FlatStorage) (domain path name : String) (now : Int) :
    Option FindResult :=
  match f.cookies.findIdx? (cookieIdent domain path name) with
  | some i => some ⟨i, f⟩
  | none =>
    let track := findTrack f.cookies now
    if track.1 != -1 then
      some ⟨track.1.toNat, { f with cookies := clearNameAt f.cookies track.1.toNat }⟩
    else if f.MaxCookies > 0 && (f.cookies.length : Int) ≥ f.MaxCookies then
      if track.2 < 0 ∨ (f.cookies.length : Int) ≤ track.2 then none
      else some ⟨track.2.toNat, { f with cookies := clearNameAt f.cookies track.2.toNat }⟩
    else
      some ⟨f.cookies.length, { f with cookies := f.cookies ++ [{}] }⟩

/-- Source `FlatStorage.Delete` from `flat.go`: find the record with the given
identity, overwrite it with the last record and truncate. -/
def FlatStorage.delete (f : FlatStorage) (domain path name : String) :
    Bool × FlatStorage :=
  let n := f.cookies.length
  if n == 0 then (false, f)
  else
    match f.cookies.findIdx? (cookieIdent domain path name) with
    | none => (false, f)
    | some i =>
      let cs := if i < n - 1 then f.cookies.set i (f.cookies.getLastD default)
        else f.cookies
      (true, { f with cookies := cs.take (n - 1) })

/-- Source `FlatStorage.Retrieve` from `flat.go`: the unsorted list of
non-empty records passing `shouldSend`. -/
def FlatStorage.retrieve (f : FlatStorage) (host path : String) (secure : Bool)
    (now : Int) : List Cookie :=
  f.cookies.filter (fun c => !c.empty && c.shouldSend host path secure now)

/-- Source `FlatStorage.remove` from `flat.go`: replace the record at `i` with
the last record and truncate. -/
def removeAt (cs : List Cookie) (i : Nat) : List Cookie :=
  let n := cs.length - 1
  let cs2 := if i < n then cs.set i (cs.getLastD default) else cs
  cs2.take n

/-- The loop of `FlatStorage.RemoveExpired`, with fuel for structural
recursion (the fuel passed by `removeExpired` never runs out).  As in
the source, after removing the record at `i` the loop continues with
`i + 1`, so the record swapped into slot `i` is not examined. -/
def removeExpiredFuel : Nat → List Cookie → Int → Nat → List Cookie
  | 0, cs, _, _ => cs
  | fuel + 1, cs, now, i =>
    if h : i < cs.length then
      if (cs.get ⟨i, h⟩).isExpired now then removeExpiredFuel fuel (removeAt cs i) now (i + 1)
      else removeExpiredFuel fuel cs now (i + 1)
    else cs

/-- Source `FlatStorage.RemoveExpired` from `flat.go`. -/
def FlatStorage.removeExpired (f : FlatStorage) (now : Int) : FlatStorage :=
  { f with cookies := removeExpiredFuel (f.cookies.length + 1) f.cookies now 0 }

/-- An entry of the bounded least-used heap (`heapitem` in
`cookie.go`): a cookie plus auxiliary data. -/
structure HeapItem (α : Type) where
  cookie : Cookie
  data : α
deriving DecidableEq, Repr

/-- Remove a youngest entry (greatest `LastAccess`) from a list,
returning it and the remaining entries.  Modelled: `container/heap`
(Go standard library, external); `cookieheap.Less` orders by
`LastAccess.After`, so `heap.Pop` removes an entry whose `LastAccess`
is maximal.  Under the distinct-timestamp hypotheses used below this
entry is unique. -/
def extractYoungest {α : Type} : List (HeapItem α) → Option (HeapItem α × List (HeapItem α))
  | [] => none
  | x :: xs =>
    match extractYoungest xs with
    | none => some (x, [])
    | some (m, rest) =>
      if m.cookie.LastAccess > x.cookie.LastAccess then some (m, x :: rest)
      else some (x, xs)

/-- Source `leastUsed.insert` from `cookie.go`: push the new entry; when the
bound `n` is exceeded, pop a youngest entry. -/
def luInsert {α : Type} (n : Nat) (elem : List (HeapItem α)) (it : HeapItem α) :
    List (HeapItem α) :=
  let e2 := elem ++ [it]
  if n < e2.length then
    match extractYoungest e2 with
    | some (_, rest) => rest
    | none => e2
  else e2

/-- Feed a stream of entries through a `leastUsed` selector of bound
`n`; the result is `elements()`. -/
def luRun {α : Type} (n : Nat) (stream : List (HeapItem α)) : List (HeapItem α) :=
  stream.foldl (luInsert n) []

/-- The `del` least-used cookies of a list, as selected by the
`leastUsed` helper inside `FlatStorage.Cleanup`. -/
def leastUsedSelect (del : Nat) (cs : List Cookie) : List Cookie :=
  (luRun del (cs.map (fun c => ⟨c, ()⟩))).map (·.cookie)

/-- Source `f.remove(f.index(cookie))`: remove the first record equal to `c`
(`index` compares Go pointers; records here are values and the
selected records come from the list itself). -/
def removeCookie (cs : List Cookie) (c : Cookie) : List Cookie :=
  match cs.findIdx? (· == c) with
  | some i => removeAt cs i
  | none => cs

/-- Source `FlatStorage.Cleanup` from `flat.go`: sweep expired records; the
per-domain pass `cleanupPerDomain` is a stub in the source (`TODO:
might require code...`) and removes nothing; then, over the total cap,
remove the excess least-used records. -/
def FlatStorage.cleanup (f : FlatStorage) (total perDomain : Int) (now : Int) :
    FlatStorage :=
  let f1 := f.removeExpired now
  -- `cleanupPerDomain(perDomain)` : returns 0, no effect
  if total > 0 && (f1.cookies.length : Int) > total then
    let del := f1.cookies.length - total.toNat
    let selected := leastUsedSelect del f1.cookies
    { f1 with cookies := selected.foldl removeCookie f1.cookies }
  else f1

/-- Source `FlatStorage.GobEncode` from `flat.go`.  Modelled: `encoding/gob`
(Go standard library, external); the encoded bytes are modelled by the
list of records written to the encoder.  The source encodes
`f.cookies` with no filtering. -/
def FlatStorage.gobEncode (f : FlatStorage) : List Cookie :=
  f.cookies

/-- Source `FlatStorage.GobDecode` from `flat.go`: replace the stored records
by the decoded ones, dropping records already expired at decode
time. -/
def FlatStorage.gobDecode (f : FlatStorage) (data : List Cookie) (now : Int) :
    FlatStorage :=
  { f with cookies := data.filter (fun c => !(c.isExpired now)) }

/-- Source `Jar.GobDecode` from `cookie.go`: the entire body is commented out
in the source; the function returns `nil` and leaves the storage
unchanged. -/
def jarGobDecode (s : FlatStorage) (data : List Cookie) : FlatStorage :=
  s

/-- The received cookie (`http.Cookie`), reduced to the fields the jar
reads.  A zero `Expires` is "absent"; `MaxAge` is seconds. -/
structure HttpCookie where
  Name : String := ""
  Value : String := ""
  Path : String := ""
  Domain : String := ""
  Expires : Int := 0
  MaxAge : Int := 0
  Secure : Bool := false
  HttpOnly : Bool := false
deriving DecidableEq, Repr, Inhabited

/-- Action codes of `Jar.update` (`updateAction` in `cookie.go`). -/
inductive UpdateAction where
  | invalidCookie
  | createCookie
  | updateCookie
  | deleteCookie
  | noSuchCookie
deriving DecidableEq, Repr

/-- The jar (`Jar` in `cookie.go`) over a `FlatStorage`: the
configuration fields plus the storage. -/
structure Jar where
  MaxCookiesPerDomain : Int := 0
  MaxCookiesTotal : Int := 0
  MaxBytesPerCookie : Int := 0
  LaxMode : Bool := false
  AllowAllDomains : Bool := false
  storage : FlatStorage := {}
deriving DecidableEq, Repr, Inhabited

/-- Source `defaultVal` from `cookie.go`: `0` selects the default, negative
values select "unlimited" (`MaxInt32`). -/
def defaultVal (val dflt : Int) : Int :=
  if val == 0 then dflt
  else if val < 0 then 2147483647
  else val

/-- The delete-or-expiry decision of `Jar.update`: whether the received
cookie is a delete request, and the expiry stored otherwise (`0` for a
session cookie).  `MaxAge` takes precedence over `Expires`; one second
is `1000000000` ticks. -/
def expiryDecision (recieved : HttpCookie) (now : Int) : Bool × Int :=
  if recieved.MaxAge < 0 then (true, 0)
  else if recieved.MaxAge > 0 then (false, now + recieved.MaxAge * 1000000000)
  else if recieved.Expires != 0 then
    if recieved.Expires < now then (true, 0) else (false, recieved.Expires)
  else (false, 0)

/-- The path derivation of `Jar.update`: the received `Path` when it
is non-empty and absolute, the request default path otherwise. -/
def cookiePath (recieved : HttpCookie) (defaultpath : String) : String :=
  if recieved.Path == "" || recieved.Path.toList.headD ' ' != '/' then defaultpath
  else recieved.Path

/-- Source `Jar.update` from `cookie.go`: store, update or delete the received
cookie.  `psinfo` stands for `publicsuffixRules.info` on the compiled
table.  `none` models the panic inside `FlatStorage.Find`. -/
def Jar.update (psinfo : String → PSInfo) (jar : Jar) (host defaultpath : String)
    (now : Int) (recieved : HttpCookie) : Option (UpdateAction × Jar) :=
  match domainAndType psinfo jar.LaxMode jar.AllowAllDomains host recieved.Domain with
  | .error _ => some (.invalidCookie, jar)
  | .ok (domain, hostOnly) =>
    let path := cookiePath recieved defaultpath
    let dec := expiryDecision recieved now
    if dec.1 then
      some (.deleteCookie, { jar with storage := (jar.storage.delete domain path recieved.Name).2 })
    else
      match jar.storage.find domain path recieved.Name now with
      | none => none
      | some fr =>
        let cookie := fr.store.cookies.getD fr.idx default
        if cookie.Name.length == 0 then
          let newC : Cookie :=
            { Domain := domain
              HostOnly := hostOnly
              Path := path
              Name := recieved.Name
              Value := recieved.Value
              HttpOnly := recieved.HttpOnly
              Secure := recieved.Secure
              Expires := dec.2
              Created := now
              LastAccess := now }
          some (.createCookie,
            { jar with storage := { fr.store with cookies := fr.store.cookies.set fr.idx newC } })
        else
          let upd : Cookie :=
            { cookie with
              HostOnly := hostOnly
              Value := recieved.Value
              HttpOnly := recieved.HttpOnly
              Expires := dec.2
              Secure := recieved.Secure
              LastAccess := now }
          some (.updateCookie,
            { jar with storage := { fr.store with cookies := fr.store.cookies.set fr.idx upd } })

/-- Source `Jar.SetCookies` from `cookie.go`: for an http(s) URL with a good
host, run `update` on each received cookie small enough for the
byte cap, advancing `now` one tick per processed cookie, then call
`Storage.Cleanup` with the raw `MaxCookiesTotal` and
`MaxCookiesPerDomain` fields.  The `total` and `empty` counters the
source increments per action are never read on this path and are not
modelled. -/
def Jar.setCookies (psinfo : String → PSInfo) (jar : Jar) (u : URL)
    (cookies : List HttpCookie) (now0 : Int) : Option Jar :=
  if !isHTTP u then some jar
  else
    match host u with
    | none => some jar
    | some h =>
      let dp := defaultPath u
      let maxBytes := defaultVal jar.MaxBytesPerCookie 4096
      let run := cookies.foldl
        (fun st c =>
          match st with
          | none => none
          | some (j, now) =>
            if ((c.Name.length + c.Value.length : Nat) : Int) > maxBytes then some (j, now)
            else
              match Jar.update psinfo j h dp now c with
              | none => none
              | some (_, j2) => some (j2, now + 1))
        (some (jar, now0))
      match run with
      | none => none
      | some (j, now) =>
        some { j with storage := j.storage.cleanup j.MaxCookiesTotal j.MaxCookiesPerDomain now }

/-- The list of records `Jar.Cookies` from `cookie.go` selects and
sorts for an http(s) URL: `Storage.Retrieve` on the canonical host,
sorted by the send order.  Modelled: `sort.Sort` (Go standard library,
external) produces a permutation sorted with respect to
`¬ Less(j, i)`, realised here by insertion sort on `sendLE`. -/
def Jar.cookiesSelection (jar : Jar) (u : URL) (now : Int) : List Cookie :=
  if !isHTTP u then []
  else
    match host u with
    | none => []
    | some h =>
      let secure := isSecure u
      let path := if u.Path == "" then "/" else u.Path
      List.insertionSort sendLE (jar.storage.retrieve h path secure now)

/-- Source `Jar.Cookies` returns the name/value projection of the sorted
selection. -/
def Jar.cookiesOf (jar : Jar) (u : URL) (now : Int) : List (String × String) :=
  (jar.cookiesSelection u now).map (fun c => (c.Name, c.Value))

/-- The directory computation as the general sentence of claim C8 words
it: the substring up to and including the last `/` (with the stated
`/`-collapse exception). -/
def defaultPathClaim (path : String) : String :=
  if path.length == 0 || path.toList.headD ' ' != '/' then "/"
  else
    match lastIdxOf path.toList '/' with
    | some i =>
      let r := String.mk (path.toList.take (i + 1))
      if r == "/" then "/" else r
    | none => "/"

/-- The directory computation with the inclusion corrected: the
substring strictly before the last `/`, or `/` when that substring is
empty. -/
def defaultPathExcl (path : String) : String :=
  if path.length == 0 || path.toList.headD ' ' != '/' then "/"
  else
    match lastIdxOf path.toList '/' with
    | some i =>
      let r := String.mk (path.toList.take i)
      if r == "" then "/" else r
    | none => "/"

/-- The label count of claim C7, in the words of the claim: `2` for no rule
or an empty label-suffix, else `2` plus the number of dots in the
suffix plus one; minus one for an exception rule, plus one for a
wildcard rule. -/
def claimLabelCount : Option DomainRule → Nat
  | none => 2
  | some r =>
    let base := if r.rule == "" then 2 else 2 + r.rule.toList.count '.' + 1
    if r.kind == 1 then base - 1
    else if r.kind == 2 then base + 1
    else base

/-- The claim C7 reading of `effective_tld_plus_one`: per the claim it returns: the empty string
whenever the label count exceeds the number of labels, otherwise the
last `n` labels joined by dots. -/
def etldpClaim (table : RuleTable) (domain : String) : String :=
  let labels := goSplitDot domain
  let n := claimLabelCount (findDomainRule table domain)
  if labels.length < n then ""
  else goJoinDot (labels.drop (labels.length - n))

/-- A fragment of the public-suffix rule table, with the entries for
`com` and `biz` that the tests of the repository record
(`findDomainRuleTests`). -/
def rulesFix : RuleTable := fun tld =>
  if tld = "com" then some [⟨"uk", 0⟩, ⟨"", 0⟩]
  else if tld = "biz" then some [⟨"", 0⟩]
  else none

/-- A `publicsuffixRules.info` oracle agreeing with the compiled table
on the few domains the concrete theorems mention: `com` and `co.uk`
are covered public suffixes (domain cookies disallowed),
`example.com`-class domains are covered and allowed. -/
def psinfoFix : String → PSInfo := fun d =>
  if d = "com" then ⟨true, false, "com"⟩
  else if d = "co.uk" then ⟨true, false, "co.uk"⟩
  else if d = "example.com" then ⟨true, true, "example.com"⟩
  else if d = "www.example.com" then ⟨true, true, "example.com"⟩
  else ⟨false, false, ""⟩

/-- The jar of the C1 scenario: positive caps, one cookie allowed per
logical domain, ten in total. -/
def jarC1 : Jar :=
  { MaxCookiesTotal := 10, MaxCookiesPerDomain := 1 }

/-- The URL of the C1 scenario. -/
def urlC1 : URL :=
  { Scheme := "http", Host := "www.example.com", Path := "/" }

/-- The two same-domain cookies of the C1 scenario. -/
def cookiesC1 : List HttpCookie :=
  [{ Name := "a", Value := "1" }, { Name := "b", Value := "2" }]

/-- A full one-slot store holding one live cookie (C2 scenario). -/
def storeFullC2 : FlatStorage :=
  { MaxCookies := 1
    cookies := [{ Name := "a", Domain := "d", Path := "/", LastAccess := 5 }] }

/-- An unbounded store holding one record already expired at time
`100` (C2 scenario). -/
def storeExpiredC2 : FlatStorage :=
  { MaxCookies := 0
    cookies := [{ Name := "a", Domain := "d", Path := "/", Expires := 3 }] }

/-- The stored domain cookie of the C6 scenario: set by a host below
`2.3.4` (which is not an IP literal), it domain-matches the IP literal
`1.2.3.4`. -/
def cookieC6 : Cookie :=
  { Name := "x", Domain := "2.3.4", HostOnly := false }

/-- A session cookie (no expiry) for the C9 round-trip scenario. -/
def sessionC9 : Cookie :=
  { Name := "s", Value := "v", Domain := "example.com", Path := "/" }

/-- The C9 store holding only the session cookie. -/
def storeC9 : FlatStorage :=
  { MaxCookies := 0, cookies := [sessionC9] }

instance : IsTotal Cookie sendLE := by
  constructor
  have key : ∀ a b : Cookie, sendLE a b ↔
      (b.Path.length < a.Path.length ∨
        (a.Path.length = b.Path.length ∧ a.Created ≤ b.Created)) := by
    intro a b
    unfold sendLE sendLess
    by_cases h : b.Path.length = a.Path.length
    · simp [h, decide_eq_false_iff_not, Int.not_lt]
    · have h2 : a.Path.length ≠ b.Path.length := fun e => h e.symm
      simp [h, h2, decide_eq_false_iff_not, Nat.not_lt]
      omega
  intro a b
  simp only [key]
  omega

instance : IsTrans Cookie sendLE := by
  constructor
  have key : ∀ a b : Cookie, sendLE a b ↔
      (b.Path.length < a.Path.length ∨
        (a.Path.length = b.Path.length ∧ a.Created ≤ b.Created)) := by
    intro a b
    unfold sendLE sendLess
    by_cases h : b.Path.length = a.Path.length
    · simp [h, decide_eq_false_iff_not, Int.not_lt]
    · have h2 : a.Path.length ≠ b.Path.length := fun e => h e.symm
      simp [h, h2, decide_eq_false_iff_not, Nat.not_lt]
      omega
  intro a b c hab hbc
  simp only [key] at hab hbc ⊢
  omega

theorem sendLE_iff_sendOrder (a b : Cookie) : sendLE a b ↔ sendOrder a b := by
  unfold sendLE sendOrder sendLess
  by_cases h : b.Path.length = a.Path.length
  · simp [h, decide_eq_false_iff_not, Int.not_lt]
  · have h2 : a.Path.length ≠ b.Path.length := fun e => h e.symm
    simp [h, h2, decide_eq_false_iff_not, Nat.not_lt]
    omega

/-- C2: on the code as written, `FlatStorage.Find` never reuses a slot:
on a full one-slot store with no identity match it dereferences index
`-1` (a Go panic, modelled by `none`) instead of reusing the
least-recently-used slot, and on a store holding an expired record it
appends a fresh record instead of reusing the expired slot — the
tracking loop is dead because its guard reads `expiredIdx != -1` while
`expiredIdx` starts at `-1`. -/
theorem find_dead_tracking_eval :
    FlatStorage.find storeFullC2 "d" "/" "x" 100 = none ∧
    FlatStorage.find storeExpiredC2 "d" "/" "x" 100 =
      some ⟨1, { storeExpiredC2 with cookies := storeExpiredC2.cookies ++ [{}] }⟩ ∧
    (storeExpiredC2.cookies.headD default).isExpired 100 = true := by
  refine ⟨rfl, rfl, rfl⟩

/-- C6: `domainMatch` as implemented accepts the IP literal `1.2.3.4`
as a domain match for the stored domain cookie with domain `2.3.4`,
although the claim (and the RFC text quoted in the source comment)
requires the host not to be an IP address for the suffix branch. -/
theorem domainMatch_ip_eval :
    cookieC6.domainMatch "1.2.3.4" = true ∧
    isIP "1.2.3.4" = true ∧
    cookieC6.HostOnly = false ∧
    cookieC6.Domain ≠ "1.2.3.4" := by
  refine ⟨rfl, rfl, rfl, by decide⟩

/-- C9: the gob round trip keeps session cookies: `GobEncode`
serialises the unfiltered record list (here the session cookie, which
has no explicit expiry), `FlatStorage.GobDecode` drops only records
already expired, and `Jar.GobDecode` is a no-op, so after
`decode(encode(state))` the session cookie is still present. -/
theorem gob_roundtrip_session_eval :
    sessionC9.Expires = 0 ∧
    FlatStorage.gobEncode storeC9 = [sessionC9] ∧
    FlatStorage.gobDecode storeC9 (FlatStorage.gobEncode storeC9) 100 = storeC9 ∧
    jarGobDecode storeC9 [sessionC9] = storeC9 := by
  refine ⟨rfl, rfl, rfl, rfl⟩

/-- C1: with positive caps (total 10, one cookie per domain), a single
`SetCookies` call storing two cookies for `www.example.com` returns
with both stored and non-expired: the per-domain cap is not enforced
because `FlatStorage.cleanupPerDomain` is a stub. -/
theorem setCookies_perDomain_eval :
    jarC1.MaxCookiesTotal = 10 ∧ jarC1.MaxCookiesPerDomain = 1 ∧
    (Jar.setCookies psinfoFix jarC1 urlC1 cookiesC1 1000).map
      (fun j => j.storage.cookies.countP
        (fun c => c.Domain == "www.example.com" && !(c.isExpired 1002))) = some 2 := by
  refine ⟨rfl, rfl, by decide⟩

/-- C5 (counterexample): `com` is a domain on which the jar allows no
domain cookie (`allowCookiesOn` is false on the table fragment, and
the public-suffix oracle covers and disallows it), the request host
`com` is byte-for-byte equal to the `Domain` attribute, yet
`domainAndType` rejects with the TLD error rather than yielding the
host-only cookie the claim promises: the dot check fires first. -/
theorem domainAndType_tld_before_ps_eval :
    allowCookiesOn rulesFix "com" = false ∧
    (psinfoFix "com").covered = true ∧ (psinfoFix "com").allow = false ∧
    domainAndType psinfoFix false false "com" "com" =
      .error .tldDomainCookie := by
  refine ⟨rfl, rfl, rfl, rfl⟩

/-- C7 (counterexample): on the public suffix `biz` the label count `2`
exceeds the single label, yet `effectiveTldPlusOne` returns the domain
itself (with the `tooShort` flag), not the empty string the claim
promises; hence `allowCookiesOn` is false although the returned string
is non-empty. -/
theorem etldp1_returns_domain_eval :
    (effectiveTldPlusOne rulesFix "biz").1 = "biz" ∧
    (effectiveTldPlusOne rulesFix "biz").2 = true ∧
    etldpClaim rulesFix "biz" = "" ∧
    allowCookiesOn rulesFix "biz" = false ∧
    (effectiveTldPlusOne rulesFix "biz").1 ≠ "" := by
  refine ⟨rfl, rfl, rfl, rfl, by decide⟩

/-- C8 (counterexample): on the path `/ab/xy` the substring up to and
including the last `/` is `/ab/`, but `defaultPath` returns `/ab` —
the last `/` is excluded (as the own examples of the claim record). -/
theorem defaultPath_excludes_slash_eval :
    defaultPath { Path := "/ab/xy" } = "/ab" ∧
    defaultPathClaim "/ab/xy" = "/ab/" ∧
    ("/ab" : String) ≠ "/ab/" := by
  refine ⟨rfl, rfl, by decide⟩

theorem sendOrder_total (a b : Cookie) : sendOrder a b ∨ sendOrder b a := by
  unfold sendOrder
  omega

/-- C3: for every jar state, http(s) URL and time, the record list that
`Cookies` selects is sorted by the send order: a cookie with a longer
path precedes every cookie with a shorter path, and among cookies with
equal path length the one with the earlier creation time comes no
later; and the send order is total. -/
theorem cookies_sorted_send_order (jar : Jar) (u : URL) (now : Int) :
    List.Pairwise sendOrder (jar.cookiesSelection u now) ∧
    ∀ a b : Cookie, sendOrder a b ∨ sendOrder b a := by
  have key : ∀ l : List Cookie,
      List.Pairwise sendOrder (List.insertionSort sendLE l) := by
    intro l
    exact (List.sorted_insertionSort sendLE l).imp
      (fun hab => (sendLE_iff_sendOrder _ _).1 hab)
  refine ⟨?_, sendOrder_total⟩
  unfold Jar.cookiesSelection
  split
  · exact List.Pairwise.nil
  · split
    · exact List.Pairwise.nil
    · exact key _

/-- C7 (amended): `effectiveTldPlusOne` determines the label count `n`
exactly as the claim states (2 for no rule or an empty label-suffix,
else 2 + dots + 1, minus one for an exception rule, plus one for a
wildcard rule), and returns the last `min n #labels` labels joined by
dots — the whole domain, not the empty string, when `n` exceeds the
label count — together with the `tooShort` flag reporting that excess;
`allowCookiesOn` is true exactly when the flag is unset. -/
theorem etldp1_amended_correct (table : RuleTable) (domain : String) :
    effectiveTldPlusOne table domain =
      (goJoinDot ((goSplitDot domain).drop
          ((goSplitDot domain).length -
            min (claimLabelCount (findDomainRule table domain)) (goSplitDot domain).length)),
        decide ((goSplitDot domain).length <
          claimLabelCount (findDomainRule table domain))) ∧
    (allowCookiesOn table domain = true ↔ (effectiveTldPlusOne table domain).2 = false) := by
  have hn : (match findDomainRule table domain with
      | none => 2
      | some rule =>
        let base := if rule.rule == "" then 2 else rule.rule.toList.count '.' + 3
        if rule.kind == 1 then base - 1
        else if rule.kind == 2 then base + 1
        else base) =
      claimLabelCount (findDomainRule table domain) := by
    cases findDomainRule table domain with
    | none => rfl
    | some r =>
      simp only [claimLabelCount]
      have h3 : r.rule.toList.count '.' + 3 = 2 + r.rule.toList.count '.' + 1 := by omega
      rw [h3]
  have key : ∀ (n : Nat) (labels : List String),
      ((if n > labels.length then (labels.length, true) else (n, false)) :
          Nat × Bool).1 = min n labels.length ∧
      ((if n > labels.length then (labels.length, true) else (n, false)) :
          Nat × Bool).2 = decide (labels.length < n) := by
    intro n labels
    by_cases h : n > labels.length
    · have h1 : min n labels.length = labels.length := Nat.min_eq_right (Nat.le_of_lt h)
      simp [h, h1]
    · have h1 : min n labels.length = n := Nat.min_eq_left (Nat.le_of_not_lt h)
      simp [h, h1]
  constructor
  · simp only [effectiveTldPlusOne]
    rw [hn]
    rw [(key (claimLabelCount (findDomainRule table domain)) (goSplitDot domain)).1,
      (key (claimLabelCount (findDomainRule table domain)) (goSplitDot domain)).2]
  · unfold allowCookiesOn
    cases h : (effectiveTldPlusOne table domain).2 <;> simp [h]

/-- C8 (amended): `defaultPath` returns `/` when the path is empty or
does not start with `/`, and otherwise the substring strictly before
(not including) the last `/`, except that when that substring is empty
it returns `/`; in particular `"" ↦ /`, `/abc ↦ /`, `/ab/xy ↦ /ab` and
`/ab/ ↦ /ab`. -/
theorem defaultPath_amended_correct (u : URL) :
    defaultPath u = defaultPathExcl u.Path ∧
    defaultPath { Path := "" } = "/" ∧
    defaultPath { Path := "/abc" } = "/" ∧
    defaultPath { Path := "/ab/xy" } = "/ab" ∧
    defaultPath { Path := "/ab/" } = "/ab" := by
  refine ⟨?_, rfl, rfl, rfl, rfl⟩
  have hdp : defaultPath u =
      (if (u.Path.length == 0 || u.Path.toList.headD ' ' != '/') then "/"
       else
        match lastIdxOf u.Path.toList '/' with
        | some 0 => "/"
        | some i => String.mk (u.Path.toList.take i)
        | none => "/") := rfl
  have hex : defaultPathExcl u.Path =
      (if (u.Path.length == 0 || u.Path.toList.headD ' ' != '/') then "/"
       else
        match lastIdxOf u.Path.toList '/' with
        | some i =>
          if String.mk (u.Path.toList.take i) == "" then "/"
          else String.mk (u.Path.toList.take i)
        | none => "/") := rfl
  rw [hdp, hex]
  cases hb : (u.Path.length == 0 || u.Path.toList.headD ' ' != '/') with
  | true => rfl
  | false =>
    rw [if_neg Bool.false_ne_true, if_neg Bool.false_ne_true]
    have hne : u.Path.toList ≠ [] := by
      intro he
      have h0 : u.Path.length = 0 := by
        have h1 : u.Path.length = u.Path.toList.length := rfl
        rw [h1, he]
        rfl
      rw [h0] at hb
      simp at hb
    cases hidx : lastIdxOf u.Path.toList '/' with
    | none => rfl
    | some i =>
      cases i with
      | zero => rfl
      | succ j =>
        cases hl : u.Path.toList with
        | nil => exact absurd hl hne
        | cons c cs =>
          simp only [List.take_succ_cons]
          have hmk : ¬ ((String.mk (c :: List.take j cs) == "") = true) := by
            rw [Bool.not_eq_true, beq_eq_false_iff_ne]
            intro he
            have := congrArg String.data he
            simp at this
          rw [if_neg hmk]

/-- C5 (amended): when reject-public-suffixes mode is on and a received
cookie carries a non-empty `Domain` attribute whose stripped,
lower-cased form is well-formed (non-empty, no leading dot), contains a
dot, and names a domain that the public-suffix engine covers and
disallows (its notion of `allow_domain_cookie` being false), and the
request host is not an IP literal, then `domainAndType` yields a
host-only cookie for the request host exactly when the host is
byte-for-byte equal to the original (unstripped) `Domain` attribute,
and otherwise rejects with the illegal-public-suffix error, in which
case `update` stores nothing. -/
theorem domainAndType_public_suffix (psinfo : String → PSInfo) (lax : Bool)
    (host0 domainAttr : String)
    (hattr : domainAttr ≠ "")
    (hip : isIP host0 = false)
    (hlen : (stripDomainAttr domainAttr).length ≠ 0)
    (hhead : (stripDomainAttr domainAttr).toList.headD ' ' ≠ '.')
    (hdot : (stripDomainAttr domainAttr).toList.contains '.' = true)
    (hcov : (psinfo (stripDomainAttr domainAttr)).covered = true)
    (hallow : (psinfo (stripDomainAttr domainAttr)).allow = false) :
    domainAndType psinfo lax false host0 domainAttr =
      (if host0 = domainAttr then .ok (host0, true) else .error .illegalPSDomain) ∧
    ∀ (jar : Jar) (dp : String) (now : Int) (rc : HttpCookie),
      jar.LaxMode = lax → jar.AllowAllDomains = false → rc.Domain = domainAttr →
      host0 ≠ domainAttr →
      Jar.update psinfo jar host0 dp now rc = some (.invalidCookie, jar) := by
  have main : domainAndType psinfo lax false host0 domainAttr =
      (if host0 = domainAttr then .ok (host0, true) else .error .illegalPSDomain) := by
    simp only [domainAndType]
    rw [if_neg (by simp [hattr])]
    rw [if_neg (by simp [hip])]
    rw [if_neg (by simp [hlen]; simpa using hhead)]
    rw [if_neg (by simp; simpa using hdot)]
    rw [if_pos (by simp [hcov, hallow])]
    by_cases hh : host0 = domainAttr
    · rw [if_pos hh, if_pos (by simp [hh])]
    · rw [if_neg hh, if_neg (by simp [hh])]
  refine ⟨main, ?_⟩
  intro jar dp now rc h1 h2 h3 hne
  rw [if_neg hne] at main
  simp only [Jar.update, h1, h2, h3, main]

theorem findTrack_eq (cs : List Cookie) (now : Int) : findTrack cs now = (-1, -1) := by
  have key : ∀ (l : List (Nat × Cookie)),
      l.foldl (findTrackStep now) (-1, -1, farFuture) = (-1, -1, farFuture) := by
    intro l
    induction l with
    | nil => rfl
    | cons x xs ih =>
      rw [List.foldl_cons]
      have hstep : findTrackStep now (-1, -1, farFuture) x = (-1, -1, farFuture) := by
        simp [findTrackStep]
      rw [hstep, ih]
  unfold findTrack
  rw [key]

theorem find_eq (f : FlatStorage) (d p n : String) (now : Int) :
    f.find d p n now =
      match f.cookies.findIdx? (cookieIdent d p n) with
      | some i => some ⟨i, f⟩
      | none =>
        if f.MaxCookies > 0 && (f.cookies.length : Int) ≥ f.MaxCookies then none
        else some ⟨f.cookies.length, { f with cookies := f.cookies ++ [{}] }⟩ := by
  unfold FlatStorage.find
  cases f.cookies.findIdx? (cookieIdent d p n) with
  | some i => rfl
  | none =>
    simp only [findTrack_eq]
    rfl

theorem expiryDecision_deletes (rc : HttpCookie) (now : Int)
    (h : rc.MaxAge < 0 ∨ (rc.MaxAge = 0 ∧ rc.Expires ≠ 0 ∧ rc.Expires < now)) :
    (expiryDecision rc now).1 = true := by
  unfold expiryDecision
  rcases h with h | ⟨h0, he, hlt⟩
  · rw [if_pos h]
  · rw [if_neg (by omega), if_neg (by omega), if_pos (bne_iff_ne.mpr he), if_pos hlt]

theorem expiryDecision_maxAge_pos (rc : HttpCookie) (now : Int) (h : rc.MaxAge > 0) :
    expiryDecision rc now = (false, now + rc.MaxAge * 1000000000) := by
  unfold expiryDecision
  rw [if_neg (by omega), if_pos h]

theorem expiryDecision_expires_future (rc : HttpCookie) (now : Int)
    (h0 : rc.MaxAge = 0) (he : rc.Expires ≠ 0) (hf : ¬ rc.Expires < now) :
    expiryDecision rc now = (false, rc.Expires) := by
  unfold expiryDecision
  rw [if_neg (by omega), if_neg (by omega), if_pos (bne_iff_ne.mpr he), if_neg hf]

theorem expiryDecision_session (rc : HttpCookie) (now : Int)
    (h0 : rc.MaxAge = 0) (he : rc.Expires = 0) :
    expiryDecision rc now = (false, 0) := by
  unfold expiryDecision
  rw [if_neg (by omega), if_neg (by omega), if_neg (by simp [he])]

theorem getLastD_irrel {α : Type} : ∀ (l : List α) (d1 d2 : α), l ≠ [] →
    l.getLastD d1 = l.getLastD d2 := by
  intro l
  induction l with
  | nil => intro d1 d2 h; exact absurd rfl h
  | cons x xs ih =>
    intro d1 d2 _
    cases xs with
    | nil => rfl
    | cons y ys =>
      simp only [List.getLastD_eq_getLast?]
      cases hgl : (y :: ys).getLast? with
      | none => simp at hgl
      | some a => rfl

theorem dropLast_append_getLastD {α : Type} : ∀ (l : List α) (d : α), l ≠ [] →
    l.dropLast ++ [l.getLastD d] = l := by
  intro l
  induction l with
  | nil => intro d h; exact absurd rfl h
  | cons x xs ih =>
    intro d _
    cases xs with
    | nil => rfl
    | cons y ys =>
      rw [List.getLastD_cons]
      have h2 := ih x (by simp)
      simp only [List.dropLast_cons₂, List.cons_append]
      rw [h2]

theorem set_getLastD_take_perm {α : Type} [Inhabited α] :
    ∀ (l : List α) (i : Nat), i < l.length →
      List.Perm
        ((if i < l.length - 1 then l.set i (l.getLastD default) else l).take (l.length - 1))
        (l.eraseIdx i) := by
  intro l
  induction l with
  | nil => intro i hi; simp at hi
  | cons x xs ih =>
    intro i hi
    cases i with
    | zero =>
      cases xs with
      | nil => simp
      | cons y ys =>
        have hc : 0 < (x :: y :: ys).length - 1 := by simp
        rw [if_pos hc, List.getLastD_cons, List.set_cons_zero]
        have hlen : (x :: y :: ys).length - 1 = ys.length + 1 := by simp
        rw [hlen, List.take_succ_cons, List.eraseIdx_cons_zero]
        have ht : (y :: ys).take ys.length = (y :: ys).dropLast := by
          rw [List.dropLast_eq_take]
          simp
        rw [ht]
        have hd := dropLast_append_getLastD (y :: ys) x (by simp)
        have hperm : (((y :: ys).getLastD x :: (y :: ys).dropLast)).Perm
            ((y :: ys).dropLast ++ [(y :: ys).getLastD x]) :=
          (List.perm_append_singleton _ _).symm
        rw [hd] at hperm
        exact hperm
    | succ j =>
      have hj : j < xs.length := by simpa using hi
      have hxs : xs ≠ [] := by intro he; rw [he] at hj; simp at hj
      have hlen : (x :: xs).length - 1 = xs.length := by simp
      by_cases hc : j + 1 < (x :: xs).length - 1
      · rw [if_pos hc, List.set_cons_succ]
        have hA : (x :: xs).getLastD default = xs.getLastD default := by
          cases xs with
          | nil => exact absurd rfl hxs
          | cons y ys =>
            rw [List.getLastD_cons]
            exact getLastD_irrel (y :: ys) x default (by simp)
        rw [hA, hlen]
        have hsz : xs.length = (xs.length - 1) + 1 := by omega
        rw [hsz, List.take_succ_cons, List.eraseIdx_cons_succ]
        apply List.Perm.cons
        have hc2 : j < xs.length - 1 := by rw [hlen] at hc; omega
        have ihj := ih j hj
        rw [if_pos hc2] at ihj
        exact ihj
      · rw [if_neg hc, hlen]
        have hj1 : j + 1 = xs.length := by rw [hlen] at hc; omega
        rw [← hj1, List.take_succ_cons, List.eraseIdx_cons_succ]
        apply List.Perm.cons
        rw [List.eraseIdx_eq_take_drop_succ]
        have hdrop : xs.drop (j + 1) = [] := by
          rw [hj1]
          exact List.drop_length xs
        rw [hdrop, List.append_nil]

theorem delete_not_found (f : FlatStorage) (d p n : String)
    (h : f.cookies.findIdx? (cookieIdent d p n) = none) :
    f.delete d p n = (false, f) := by
  unfold FlatStorage.delete
  by_cases hz : (f.cookies.length == 0) = true
  · rw [if_pos hz]
  · rw [if_neg hz, h]

theorem delete_found (f : FlatStorage) (d p n : String) (i : Nat)
    (h : f.cookies.findIdx? (cookieIdent d p n) = some i) :
    (f.delete d p n).1 = true ∧
    List.Perm (f.delete d p n).2.cookies (f.cookies.eraseIdx i) := by
  have hi : i < f.cookies.length := (List.findIdx?_eq_some_iff_findIdx_eq.mp h).1
  have hz : ¬ ((f.cookies.length == 0) = true) := by
    simp only [beq_iff_eq]
    omega
  unfold FlatStorage.delete
  rw [if_neg hz, h]
  exact ⟨rfl, set_getLastD_take_perm f.cookies i hi⟩

theorem mem_set_self (l : List Cookie) (i : Nat) (c : Cookie) (h : i < l.length) :
    c ∈ l.set i c := by
  have h2 : i < (l.set i c).length := by simpa using h
  have h3 : (l.set i c)[i] = c := List.getElem_set_self h2
  have h4 := List.getElem_mem h2
  rw [h3] at h4
  exact h4

theorem update_stores (psinfo : String → PSInfo) (jar : Jar) (host0 dp : String)
    (now E : Int) (rc : HttpCookie) (domain : String) (hostOnly : Bool)
    (hok : domainAndType psinfo jar.LaxMode jar.AllowAllDomains host0 rc.Domain =
      .ok (domain, hostOnly))
    (hdec : expiryDecision rc now = (false, E)) :
    ∀ act jar2, Jar.update psinfo jar host0 dp now rc = some (act, jar2) →
      ∃ c ∈ jar2.storage.cookies, c.Domain = domain ∧ c.Path = cookiePath rc dp ∧
        c.Name = rc.Name ∧ c.Expires = E := by
  intro act jar2 hupd
  simp only [Jar.update, hok, hdec] at hupd
  rw [if_neg Bool.false_ne_true] at hupd
  cases hfi : jar.storage.cookies.findIdx? (cookieIdent domain (cookiePath rc dp) rc.Name) with
  | some i =>
    have hfind : jar.storage.find domain (cookiePath rc dp) rc.Name now =
        some ⟨i, jar.storage⟩ := by
      rw [find_eq, hfi]
    rw [hfind] at hupd
    dsimp only at hupd
    obtain ⟨hlt, hpi, -⟩ := List.findIdx?_eq_some_iff_getElem.mp hfi
    have hident : (domain = jar.storage.cookies[i].Domain ∧
        cookiePath rc dp = jar.storage.cookies[i].Path) ∧
        rc.Name = jar.storage.cookies[i].Name := by
      simpa [cookieIdent] using hpi
    have hgetD : jar.storage.cookies.getD i default = jar.storage.cookies[i] := by
      rw [List.getD_eq_getElem?_getD, List.getElem?_eq_getElem hlt]
      rfl
    rw [hgetD] at hupd
    by_cases hb : (jar.storage.cookies[i].Name.length == 0) = true
    · rw [if_pos hb] at hupd
      simp only [Option.some.injEq, Prod.mk.injEq] at hupd
      obtain ⟨-, hjar2⟩ := hupd
      subst hjar2
      exact ⟨{ Name := rc.Name
               Value := rc.Value
               Domain := domain
               Path := cookiePath rc dp
               Expires := E
               Secure := rc.Secure
               HostOnly := hostOnly
               HttpOnly := rc.HttpOnly
               Created := now
               LastAccess := now },
             mem_set_self _ i _ hlt, rfl, rfl, rfl, rfl⟩
    · rw [if_neg hb] at hupd
      simp only [Option.some.injEq, Prod.mk.injEq] at hupd
      obtain ⟨-, hjar2⟩ := hupd
      subst hjar2
      refine ⟨{ Name := jar.storage.cookies[i].Name
                Value := rc.Value
                Domain := jar.storage.cookies[i].Domain
                Path := jar.storage.cookies[i].Path
                Expires := E
                Secure := rc.Secure
                HostOnly := hostOnly
                HttpOnly := rc.HttpOnly
                Created := jar.storage.cookies[i].Created
                LastAccess := now },
             mem_set_self _ i _ hlt, ?_, ?_, ?_, rfl⟩
      · exact hident.1.1.symm
      · exact hident.1.2.symm
      · exact hident.2.symm
  | none =>
    by_cases hcap : (jar.storage.MaxCookies > 0 &&
        ((jar.storage.cookies.length : Int) ≥ jar.storage.MaxCookies)) = true
    · have hfind : jar.storage.find domain (cookiePath rc dp) rc.Name now = none := by
        rw [find_eq, hfi]
        rw [if_pos hcap]
      rw [hfind] at hupd
      simp at hupd
    · have hfind : jar.storage.find domain (cookiePath rc dp) rc.Name now =
          some ⟨jar.storage.cookies.length,
            { jar.storage with cookies := jar.storage.cookies ++ [{}] }⟩ := by
        rw [find_eq, hfi]
        rw [if_neg hcap]
      rw [hfind] at hupd
      dsimp only at hupd
      have hlen : jar.storage.cookies.length <
          (jar.storage.cookies ++ [({} : Cookie)]).length := by
        simp
      have hgetD : (jar.storage.cookies ++ [({} : Cookie)]).getD
          jar.storage.cookies.length default = ({} : Cookie) := by
        rw [List.getD_eq_getElem?_getD, List.getElem?_eq_getElem hlen]
        simp
      rw [hgetD] at hupd
      rw [if_pos (by rfl)] at hupd
      simp only [Option.some.injEq, Prod.mk.injEq] at hupd
      obtain ⟨-, hjar2⟩ := hupd
      subst hjar2
      exact ⟨{ Name := rc.Name
               Value := rc.Value
               Domain := domain
               Path := cookiePath rc dp
               Expires := E
               Secure := rc.Secure
               HostOnly := hostOnly
               HttpOnly := rc.HttpOnly
               Created := now
               LastAccess := now },
             mem_set_self _ jar.storage.cookies.length _ hlen, rfl, rfl, rfl, rfl⟩

/-- C4: for every received cookie accepted by the ingest pipeline
(`domainAndType` succeeded): `MaxAge < 0`, and `MaxAge == 0` with an
explicit `Expires` before `now`, are delete requests — `update` runs
`Storage.Delete`, which removes the record identified by
`(domain, path, name)` when it exists (the remaining records are a
permutation of the store with that record erased) and leaves the store
unchanged otherwise.  When `MaxAge > 0` the stored expiry is
`now` plus `MaxAge` seconds; when `MaxAge == 0` and a future `Expires`
is present the stored expiry is `Expires`; in every other case the
record is stored as a session cookie with no expiry. -/
theorem update_delete_vs_store
    (psinfo : String → PSInfo) (jar : Jar) (host0 dp : String) (now : Int)
    (rc : HttpCookie) (domain : String) (hostOnly : Bool)
    (hok : domainAndType psinfo jar.LaxMode jar.AllowAllDomains host0 rc.Domain =
      .ok (domain, hostOnly)) :
    ((rc.MaxAge < 0 ∨ (rc.MaxAge = 0 ∧ rc.Expires ≠ 0 ∧ rc.Expires < now)) →
      Jar.update psinfo jar host0 dp now rc =
        some (.deleteCookie,
          { jar with storage := (jar.storage.delete domain (cookiePath rc dp) rc.Name).2 }) ∧
      (jar.storage.cookies.findIdx? (cookieIdent domain (cookiePath rc dp) rc.Name) = none →
        (jar.storage.delete domain (cookiePath rc dp) rc.Name).2 = jar.storage) ∧
      (∀ i, jar.storage.cookies.findIdx?
          (cookieIdent domain (cookiePath rc dp) rc.Name) = some i →
        List.Perm ((jar.storage.delete domain (cookiePath rc dp) rc.Name).2.cookies)
          (jar.storage.cookies.eraseIdx i))) ∧
    (rc.MaxAge > 0 →
      ∀ act jar2, Jar.update psinfo jar host0 dp now rc = some (act, jar2) →
        ∃ c ∈ jar2.storage.cookies, c.Domain = domain ∧ c.Path = cookiePath rc dp ∧
          c.Name = rc.Name ∧ c.Expires = now + rc.MaxAge * 1000000000) ∧
    (rc.MaxAge = 0 → rc.Expires ≠ 0 → ¬ rc.Expires < now →
      ∀ act jar2, Jar.update psinfo jar host0 dp now rc = some (act, jar2) →
        ∃ c ∈ jar2.storage.cookies, c.Domain = domain ∧ c.Path = cookiePath rc dp ∧
          c.Name = rc.Name ∧ c.Expires = rc.Expires) ∧
    (rc.MaxAge = 0 → rc.Expires = 0 →
      ∀ act jar2, Jar.update psinfo jar host0 dp now rc = some (act, jar2) →
        ∃ c ∈ jar2.storage.cookies, c.Domain = domain ∧ c.Path = cookiePath rc dp ∧
          c.Name = rc.Name ∧ c.Expires = 0) := by
  refine ⟨?_, ?_, ?_, ?_⟩
  · intro h
    have hd := expiryDecision_deletes rc now h
    refine ⟨?_, ?_, ?_⟩
    · simp only [Jar.update, hok]
      rw [if_pos hd]
    · intro hn
      rw [delete_not_found jar.storage _ _ _ hn]
    · intro i hi
      exact (delete_found jar.storage _ _ _ i hi).2
  · intro h act jar2
    exact update_stores psinfo jar host0 dp now _ rc domain hostOnly hok
      (expiryDecision_maxAge_pos rc now h) act jar2
  · intro h0 he hf act jar2
    exact update_stores psinfo jar host0 dp now _ rc domain hostOnly hok
      (expiryDecision_expires_future rc now h0 he hf) act jar2
  · intro h0 he act jar2
    exact update_stores psinfo jar host0 dp now _ rc domain hostOnly hok
      (expiryDecision_session rc now h0 he) act jar2

theorem extractYoungest_none_iff {α : Type} (l : List (HeapItem α)) :
    extractYoungest l = none ↔ l = [] := by
  cases l with
  | nil => simp [extractYoungest]
  | cons x xs =>
    simp only [extractYoungest]
    cases hx : extractYoungest xs with
    | none => simp
    | some p =>
      obtain ⟨m, rest⟩ := p
      by_cases hgt : m.cookie.LastAccess > x.cookie.LastAccess
      · simp [hgt]
      · simp [hgt]

theorem extractYoungest_perm {α : Type} : ∀ (l : List (HeapItem α)) m rest,
    extractYoungest l = some (m, rest) → List.Perm (m :: rest) l := by
  intro l
  induction l with
  | nil => intro m rest h; simp [extractYoungest] at h
  | cons x xs ih =>
    intro m rest h
    simp only [extractYoungest] at h
    cases hx : extractYoungest xs with
    | none =>
      rw [hx] at h
      have hxs : xs = [] := (extractYoungest_none_iff xs).mp hx
      simp only [Option.some.injEq, Prod.mk.injEq] at h
      obtain ⟨rfl, rfl⟩ := h
      rw [hxs]
    | some p =>
      obtain ⟨m2, rest2⟩ := p
      rw [hx] at h
      dsimp only at h
      by_cases hgt : m2.cookie.LastAccess > x.cookie.LastAccess
      · rw [if_pos hgt] at h
        simp only [Option.some.injEq, Prod.mk.injEq] at h
        obtain ⟨rfl, rfl⟩ := h
        have hperm := ih m2 rest2 hx
        exact List.Perm.trans (List.Perm.swap x m2 rest2) (hperm.cons x)
      · rw [if_neg hgt] at h
        simp only [Option.some.injEq, Prod.mk.injEq] at h
        obtain ⟨rfl, rfl⟩ := h
        exact List.Perm.refl _

theorem extractYoungest_max {α : Type} : ∀ (l : List (HeapItem α)) m rest,
    extractYoungest l = some (m, rest) →
      ∀ y ∈ l, y.cookie.LastAccess ≤ m.cookie.LastAccess := by
  intro l
  induction l with
  | nil => intro m rest h; simp [extractYoungest] at h
  | cons x xs ih =>
    intro m rest h y hy
    simp only [extractYoungest] at h
    cases hx : extractYoungest xs with
    | none =>
      rw [hx] at h
      have hxs : xs = [] := (extractYoungest_none_iff xs).mp hx
      simp only [Option.some.injEq, Prod.mk.injEq] at h
      obtain ⟨rfl, -⟩ := h
      rw [hxs] at hy
      simp at hy
      rw [hy]
    | some p =>
      obtain ⟨m2, rest2⟩ := p
      rw [hx] at h
      dsimp only at h
      by_cases hgt : m2.cookie.LastAccess > x.cookie.LastAccess
      · rw [if_pos hgt] at h
        simp only [Option.some.injEq, Prod.mk.injEq] at h
        obtain ⟨rfl, -⟩ := h
        cases List.mem_cons.mp hy with
        | inl he => rw [he]; exact Int.le_of_lt hgt
        | inr hm => exact ih m2 rest2 hx y hm
      · rw [if_neg hgt] at h
        simp only [Option.some.injEq, Prod.mk.injEq] at h
        obtain ⟨rfl, -⟩ := h
        cases List.mem_cons.mp hy with
        | inl he => rw [he]
        | inr hm =>
          have h1 := ih m2 rest2 hx y hm
          have h2 : m2.cookie.LastAccess ≤ x.cookie.LastAccess := Int.not_lt.mp hgt
          exact Int.le_trans h1 h2

/-- C10: feeding a finite stream of `N` cookies (with pairwise distinct
last-access timestamps) one by one into a `leastUsed` selector of bound
`k > 0` leaves `elements()` holding exactly the `min(N, k)` entries of
the stream with the smallest last-access timestamps: the kept entries
together with the dropped ones are a permutation of the stream, exactly
`min(N, k)` are kept, and every kept entry has a strictly smaller
last-access than every dropped one. -/
theorem leastUsed_keeps_smallest {α : Type} (k : Nat) (hk : 0 < k)
    (stream : List (HeapItem α))
    (hd : (stream.map (fun it => it.cookie.LastAccess)).Nodup) :
    ∃ dropped : List (HeapItem α),
      List.Perm (luRun k stream ++ dropped) stream ∧
      (luRun k stream).length = min stream.length k ∧
      ∀ x ∈ luRun k stream, ∀ y ∈ dropped,
        x.cookie.LastAccess < y.cookie.LastAccess := by
  clear hk
  induction stream using List.reverseRecOn with
  | nil => exact ⟨[], by simp [luRun], by simp [luRun], by simp⟩
  | append_singleton l x ih =>
    have hdl : (l.map (fun it => it.cookie.LastAccess)).Nodup := by
      rw [List.map_append] at hd
      exact hd.of_append_left
    obtain ⟨dropped, hperm, hlen, hlt⟩ := ih hdl
    have hrun : luRun k (l ++ [x]) = luInsert k (luRun k l) x := by
      simp [luRun, List.foldl_append]
    rw [hrun]
    unfold luInsert
    by_cases hcase : k < ((luRun k l) ++ [x]).length
    · rw [if_pos hcase]
      cases hex : extractYoungest ((luRun k l) ++ [x]) with
      | none =>
        exfalso
        have h0 := (extractYoungest_none_iff _).mp hex
        simp at h0
      | some p =>
        obtain ⟨m, rest⟩ := p
        dsimp only
        have hp1 := extractYoungest_perm _ _ _ hex
        have hmax := extractYoungest_max _ _ _ hex
        have hkE : (luRun k l).length = k := by
          have h1 : ((luRun k l) ++ [x]).length = (luRun k l).length + 1 := by simp
          have h3 : min l.length k ≤ k := Nat.min_le_right _ _
          omega
        have hlk : k ≤ l.length := by
          have h3 : min l.length k ≤ l.length := Nat.min_le_left _ _
          rcases Nat.le_total l.length k with h | h
          · rw [Nat.min_eq_left h] at hlen; omega
          · exact h
        have hperm2 : List.Perm (((luRun k l) ++ [x]) ++ dropped) (l ++ [x]) := by
          have s2 : List.Perm ([x] ++ dropped) (dropped ++ [x]) := List.perm_append_comm
          have s3 : List.Perm ((luRun k l) ++ ([x] ++ dropped))
              ((luRun k l) ++ (dropped ++ [x])) := s2.append_left _
          rw [List.append_assoc]
          refine s3.trans ?_
          rw [← List.append_assoc]
          exact hperm.append_right [x]
        have hnd2 : ((((luRun k l) ++ [x]) ++ dropped).map
            (fun it => it.cookie.LastAccess)).Nodup := by
          have hp := hperm2.map (fun it => it.cookie.LastAccess)
          exact hp.nodup_iff.mpr hd
        have hndm : (((m :: rest) ++ dropped).map
            (fun it => it.cookie.LastAccess)).Nodup := by
          have hp := (hp1.append_right dropped).map (fun it => it.cookie.LastAccess)
          exact hp.nodup_iff.mpr hnd2
        rw [List.cons_append, List.map_cons] at hndm
        have hmnotin : m.cookie.LastAccess ∉
            ((rest ++ dropped).map (fun it => it.cookie.LastAccess)) :=
          (List.nodup_cons.mp hndm).1
        refine ⟨m :: dropped, ?_, ?_, ?_⟩
        · have s1 : List.Perm (rest ++ m :: dropped) (m :: (rest ++ dropped)) :=
            List.perm_middle
          refine s1.trans ?_
          rw [← List.cons_append]
          exact (hp1.append_right dropped).trans hperm2
        · have hlr : (m :: rest).length = ((luRun k l) ++ [x]).length := hp1.length_eq
          simp only [List.length_cons, List.length_append, List.length_nil] at hlr ⊢
          rw [Nat.min_eq_right (by omega)]
          omega
        · intro a ha y hy
          have haE : a ∈ (luRun k l) ++ [x] := hp1.mem_iff.mp (List.mem_cons_of_mem m ha)
          have hale : a.cookie.LastAccess ≤ m.cookie.LastAccess := hmax a haE
          have haneq : a.cookie.LastAccess ≠ m.cookie.LastAccess := by
            intro he
            apply hmnotin
            rw [← he]
            exact List.mem_map_of_mem _ (List.mem_append_left dropped ha)
          cases List.mem_cons.mp hy with
          | inl hym =>
            rw [hym]
            exact lt_of_le_of_ne hale haneq
          | inr hyd =>
            cases List.mem_append.mp haE with
            | inl haE2 => exact hlt a haE2 y hyd
            | inr hax =>
              have hax2 : a = x := by simpa using hax
              by_cases hmx : m ∈ luRun k l
              · have h1 : m.cookie.LastAccess < y.cookie.LastAccess := hlt m hmx y hyd
                exact lt_of_le_of_lt hale h1
              · have hmE : m ∈ (luRun k l) ++ [x] :=
                  hp1.mem_iff.mp (List.mem_cons_self m rest)
                have hmx2 : m = x := by
                  cases List.mem_append.mp hmE with
                  | inl h => exact absurd h hmx
                  | inr h => simpa using h
                rw [hax2, ← hmx2] at haneq
                exact absurd rfl haneq
    · rw [if_neg hcase]
      have hlen2 : (luRun k l).length + dropped.length = l.length := by
        have h0 := hperm.length_eq
        simpa using h0
      have hkk : ¬ (k < (luRun k l).length + 1) := by simpa using hcase
      have hEll : (luRun k l).length = l.length := by
        rcases Nat.le_total l.length k with h | h
        · rw [Nat.min_eq_left h] at hlen; omega
        · rw [Nat.min_eq_right h] at hlen; omega
      have hdnil : dropped = [] := by
        have h0 : dropped.length = 0 := by omega
        exact List.length_eq_zero.mp h0
      subst hdnil
      refine ⟨[], ?_, ?_, by simp⟩
      · rw [List.append_nil]
        rw [List.append_nil] at hperm
        exact hperm.append_right [x]
      · simp only [List.length_append, List.length_cons, List.length_nil]
        omega

/-- Witness for C4 at a concrete input: an accepted host cookie with
`MaxAge = -1` is a delete request. -/
theorem update_delete_vs_store_witness :
    domainAndType psinfoFix ({ } : Jar).LaxMode ({ } : Jar).AllowAllDomains
      "www.example.com" "" = Except.ok ("www.example.com", true) ∧
    Jar.update psinfoFix { } "www.example.com" "/" 1000
      { Name := "a", MaxAge := -1 } =
      some (.deleteCookie, { ({ } : Jar) with storage :=
        (({ } : Jar).storage.delete "www.example.com"
          (cookiePath { Name := "a", MaxAge := -1 } "/") "a").2 }) := by
  refine ⟨rfl, ?_⟩
  exact ((update_delete_vs_store psinfoFix { } "www.example.com" "/" 1000
    { Name := "a", MaxAge := -1 } "www.example.com" true rfl).1
    (Or.inl (by decide))).1

/-- Witness for C5 (amended) at a concrete input: the covered,
disallowed public suffix `co.uk` queried from the non-matching host
`www.co.uk`. -/
theorem domainAndType_public_suffix_witness :
    ("co.uk" : String) ≠ "" ∧
    isIP "www.co.uk" = false ∧
    (psinfoFix (stripDomainAttr "co.uk")).covered = true ∧
    (psinfoFix (stripDomainAttr "co.uk")).allow = false ∧
    domainAndType psinfoFix false false "www.co.uk" "co.uk" =
      (if ("www.co.uk" : String) = "co.uk" then Except.ok ("www.co.uk", true)
       else Except.error GoError.illegalPSDomain) := by
  refine ⟨by decide, rfl, rfl, rfl, ?_⟩
  exact (domainAndType_public_suffix psinfoFix false "www.co.uk" "co.uk"
    (by decide) rfl (by decide) (by decide) (by decide) rfl rfl).1

/-- Witness for C10 at a concrete input: bound 2, three entries with
distinct last-access timestamps. -/
theorem leastUsed_keeps_smallest_witness :
    0 < 2 ∧
    ∃ dropped : List (HeapItem Nat),
      List.Perm (luRun 2 [⟨{ LastAccess := 3 }, 0⟩, ⟨{ LastAccess := 1 }, 1⟩,
          ⟨{ LastAccess := 2 }, 2⟩] ++ dropped)
        [⟨{ LastAccess := 3 }, 0⟩, ⟨{ LastAccess := 1 }, 1⟩, ⟨{ LastAccess := 2 }, 2⟩] ∧
      (luRun 2 [⟨{ LastAccess := 3 }, 0⟩, ⟨{ LastAccess := 1 }, 1⟩,
          ⟨{ LastAccess := 2 }, 2⟩]).length =
        min ([⟨{ LastAccess := 3 }, 0⟩, ⟨{ LastAccess := 1 }, 1⟩,
          ⟨{ LastAccess := 2 }, 2⟩] : List (HeapItem Nat)).length 2 ∧
      ∀ x ∈ luRun 2 [⟨{ LastAccess := 3 }, 0⟩, ⟨{ LastAccess := 1 }, 1⟩,
          ⟨{ LastAccess := 2 }, 2⟩],
        ∀ y ∈ dropped, x.cookie.LastAccess < y.cookie.LastAccess :=
  ⟨by decide,
   leastUsed_keeps_smallest 2 (by decide)
     [⟨{ LastAccess := 3 }, 0⟩, ⟨{ LastAccess := 1 }, 1⟩, ⟨{ LastAccess := 2 }, 2⟩]
     (by decide)⟩
